import Mathlib

/-!
Klaviyo Flow Builder — verification of the flow graph model and
dual-target compiler.

Shallow embedding of the core slice of the Klaviyo flow builder:

* the flow definition data model (`src/types.ts`),
* the flow definition validator (`src/utils/validator.ts`),
* the browser builder's graph traversal `getActionSequence`
  (`src/browser/flow-builder.ts`),
* the REST compiler's action transformation and payload assembly
  (`src/api/flow-creator.ts`): `resolveSetting`, `transformTimeDelay`,
  `transformSendEmail`, `transformSendSms`, `transformConditionalSplit`,
  `transformAction`, `transformActions`, `buildPayload`,
* the retry layer `withRetry` (`src/utils/retry.ts`).

TypeScript `x: T | undefined` fields become `Option T`; JavaScript string
falsiness (`""` is falsy) is modelled explicitly where the source relies on it.
Number-valued fields are modelled as `Int` (values) or `Nat` (counts/delays).
Throwing functions return `Except`.  Effectful observations of `withRetry`
(operation invocations, sleeps, log lines) are recorded in a trace structure.
-/

set_option maxRecDepth 8192

namespace Klaviyo

/-! ## JavaScript-style helpers

`jsFalsy?` tests mirror JavaScript truthiness on optional strings: both
`undefined` and the empty string are falsy.  `jsOrNull` models `x || null`
on a `string | undefined` value, `jsOrStr` models `x || default`. -/

def jsFalsyOpt : Option String → Bool
  | none => true
  | some s => s = ""

def jsOrNull : Option String → Option String
  | none => none
  | some s => if s = "" then none else some s

def jsOrStr (o : Option String) (d : String) : String :=
  match o with
  | none => d
  | some s => if s = "" then d else s

/-- `strContains s pat` models JavaScript `s.includes(pat)`:
`pat` occurs as a contiguous substring of `s`. -/
def strContains (s pat : String) : Bool :=
  decide (pat.data <:+: s.data)

/-- `s.trim()`: strip leading and trailing whitespace (modelled on the
character list so that it evaluates by reduction). -/
def strTrim (s : String) : String :=
  ⟨((s.data.dropWhile Char.isWhitespace).reverse.dropWhile
      Char.isWhitespace).reverse⟩

/-! ## Data model (`src/types.ts`) -/

/-- `DelayUnit` from `types.ts`. -/
inductive DelayUnit where
  | minutes
  | hours
  | days
  | weeks
deriving DecidableEq

/-- `Weekday` from `types.ts`. -/
inductive Weekday where
  | monday | tuesday | wednesday | thursday | friday | saturday | sunday
deriving DecidableEq

/-- All seven weekdays, in the order the REST compiler emits them. -/
def allWeekdays : List Weekday :=
  [.monday, .tuesday, .wednesday, .thursday, .friday, .saturday, .sunday]

/-- `ConditionType` from `types.ts`. -/
inductive ConditionType where
  | hasOpenedEmail
  | hasClickedEmail
  | hasReceivedEmail
  | hasBeenInFlow
  | profileProperty
  | profileMarketingConsent
  | metricProperty
  | custom
deriving DecidableEq

/-- An atomic filter condition.  Input flows carry uninterpreted
conditions (`raw`); the REST compiler only ever constructs the
`profile-marketing-consent` placeholder shape, modelled by
`marketingConsent channel can_receive_marketing subscription filters`. -/
inductive FilterCondition where
  | marketingConsent (channel : String) (can_receive_marketing : Bool)
      (subscription : String) (filters : Option String)
  | raw (tag : String)
deriving DecidableEq

/-- A condition group: an ordered list of atomic conditions. -/
structure ConditionGroup where
  conditions : List FilterCondition
deriving DecidableEq

/-- `TriggerFilter` from `types.ts`: an ordered list of condition groups. -/
structure TriggerFilter where
  condition_groups : List ConditionGroup
deriving DecidableEq

/-- The `condition_config` record of a conditional split (the source reads
its `channel` and `profile_filter` keys). -/
structure ConditionConfig where
  channel : Option String := none
  profile_filter : Option TriggerFilter := none
deriving DecidableEq

/-- `ReentryMode` from `types.ts`. -/
inductive ReentryMode where
  | once
  | multiple
  | timeBased
deriving DecidableEq

/-- Re-entry cooldown unit (`'hours' | 'days' | 'weeks'`). -/
inductive ReentryUnit where
  | hours
  | days
  | weeks
deriving DecidableEq

/-- `ReentryConfig` from `types.ts`. -/
structure ReentryConfig where
  mode : ReentryMode
  value : Option Int := none
  unit : Option ReentryUnit := none
deriving DecidableEq

/-- `FlowSettings` from `types.ts`. -/
structure FlowSettings where
  smart_sending : Option Bool := none
  utm_tracking : Option Bool := none
  reentry : Option ReentryConfig := none
deriving DecidableEq

/-- `MetricTrigger` from `types.ts`. -/
structure MetricTrigger where
  metric_name : String
  metric_id : Option String := none
  trigger_filter : Option TriggerFilter := none
deriving DecidableEq

/-- `ListTrigger` from `types.ts`. -/
structure ListTrigger where
  list_name : String
  list_id : Option String := none
deriving DecidableEq

/-- `DateTrigger` from `types.ts`. -/
structure DateTrigger where
  property_name : String
  offset_days : Option Int := none
deriving DecidableEq

/-- `FlowTrigger = MetricTrigger | ListTrigger | DateTrigger`. -/
inductive FlowTrigger where
  | metric (m : MetricTrigger)
  | list (l : ListTrigger)
  | dateProperty (d : DateTrigger)
deriving DecidableEq

/-- `TimeDelayAction` from `types.ts`. -/
structure TimeDelayA where
  id : String
  delay_value : Int
  delay_unit : DelayUnit
  next : Option String := none
deriving DecidableEq

/-- `SendEmailAction` from `types.ts`.  The `content` field is consumed
only by the template pre-creation phase (outside the embedded slice) and
is omitted. -/
structure SendEmailA where
  id : String
  name : String
  subject_line : Option String := none
  preview_text : Option String := none
  smart_sending : Option Bool := none
  utm_tracking : Option Bool := none
  next : Option String := none
deriving DecidableEq

/-- `SendSmsAction` from `types.ts`. -/
structure SendSmsA where
  id : String
  name : String
  body : Option String := none
  smart_sending : Option Bool := none
  utm_tracking : Option Bool := none
  next : Option String := none
deriving DecidableEq

/-- `ConditionalSplitAction` from `types.ts`. -/
structure CondSplitA where
  id : String
  condition_type : ConditionType
  condition_label : String
  condition_config : Option ConditionConfig := none
  next_if_true : Option String := none
  next_if_false : Option String := none
deriving DecidableEq

/-- `ABSplitAction` from `types.ts`. -/
structure ABSplitA where
  id : String
  variant_a_label : Option String := none
  variant_b_label : Option String := none
  split_percentage : Option Int := none
  next_variant_a : Option String := none
  next_variant_b : Option String := none
deriving DecidableEq

/-- `FlowAction`: the tagged union of the five action variants. -/
inductive FlowAction where
  | timeDelay (a : TimeDelayA)
  | sendEmail (a : SendEmailA)
  | sendSms (a : SendSmsA)
  | conditionalSplit (a : CondSplitA)
  | abSplit (a : ABSplitA)
deriving DecidableEq

/-- The `id` field shared by every action variant. -/
def FlowAction.id : FlowAction → String
  | .timeDelay a => a.id
  | .sendEmail a => a.id
  | .sendSms a => a.id
  | .conditionalSplit a => a.id
  | .abSplit a => a.id

/-- `FlowDefinition` from `types.ts`. -/
structure FlowDefinition where
  name : String
  trigger : FlowTrigger
  actions : List FlowAction
  entry_action_id : String
  profile_filter : Option TriggerFilter := none
  settings : Option FlowSettings := none
  tags : Option (List String) := none
deriving DecidableEq

/-! ## REST compiler (`src/api/flow-creator.ts`)

`transformAction` dispatches on the action variant; A/B splits throw.  The
heterogeneous `data` records of `KlaviyoAPIAction` are modelled by one
structure per record shape, collected in `APIData`; the per-variant `links`
records are modelled by `APILinks`. -/

/-- A thrown compiler error (the source throws plain `Error` values;
the spec calls the A/B-split one a `CapabilityError`). -/
structure CompileError where
  message : String
deriving DecidableEq

/-- The `links` record of a compiled action: `{next}` for linear actions,
`{next_if_true, next_if_false}` for conditional splits. -/
inductive APILinks where
  | linear (next : Option String)
  | split (next_if_true : Option String) (next_if_false : Option String)
deriving DecidableEq

/-- The `data` record of a compiled time delay. -/
structure TimeDelayData where
  unit : DelayUnit
  value : Int
  secondary_value : Int
  timezone : String
  delay_until_time : Option String
  delay_until_weekdays : Option (List Weekday)
deriving DecidableEq

/-- The `message` record built by `transformSendEmail`.  `template_id` is
only present when a pre-created template id was found and truthy. -/
structure APIEmailMessage where
  name : String
  subject_line : String
  preview_text : String
  from_email : String
  from_label : String
  reply_to_email : String
  cc_email : Option String
  bcc_email : Option String
  smart_sending_enabled : Bool
  transactional : Bool
  add_tracking_params : Bool
  custom_tracking_params : Option String
  additional_filters : Option String
  template_id : Option String
deriving DecidableEq

/-- The `message` record built by `transformSendSms`. -/
structure APISmsMessage where
  name : String
  body : String
  smart_sending_enabled : Bool
  transactional : Bool
  add_tracking_params : Bool
  respecting_sms_quiet_hours : Bool
  custom_tracking_params : Option String
  additional_filters : Option String
deriving DecidableEq

/-- The `data` record of a compiled action, one constructor per shape. -/
inductive APIData where
  | timeDelay (d : TimeDelayData)
  | email (message : APIEmailMessage) (status : String)
  | sms (message : APISmsMessage) (status : String)
  | conditionalSplit (profile_filter : TriggerFilter)
deriving DecidableEq

/-- `KlaviyoAPIAction` from `types.ts`. -/
structure KlaviyoAPIAction where
  temporary_id : String
  type : String
  links : APILinks
  data : APIData
deriving DecidableEq

/-- `KlaviyoAPITrigger` from `types.ts`. -/
structure KlaviyoAPITrigger where
  type : String
  id : String
  trigger_filter : Option TriggerFilter := none
deriving DecidableEq

/-- `resolveSetting` from `flow-creator.ts`: per-action override wins,
else flow-level default, else the hard-coded fallback. -/
def resolveSetting (perAction : Option Bool) (flowDefault : Option Bool)
    (fallback : Bool) : Bool :=
  match perAction with
  | some b => b
  | none =>
    match flowDefault with
    | some b => b
    | none => fallback

/-- `transformTimeDelay`: Klaviyo only allows `delay_until_weekdays`
when the unit is `'days'`; otherwise it is emitted as null. -/
def transformTimeDelay (a : TimeDelayA) : KlaviyoAPIAction :=
  let isDays := a.delay_unit = DelayUnit.days
  { temporary_id := a.id
    type := "time-delay"
    links := .linear (jsOrNull a.next)
    data := .timeDelay
      { unit := a.delay_unit
        value := a.delay_value
        secondary_value := 0
        timezone := "profile"
        delay_until_time := none
        delay_until_weekdays := if isDays then some allWeekdays else none } }

/-- `this.defaultFromEmail` set in the `APIFlowCreator` constructor:
`config.email || 'noreply@example.com'`. -/
def defaultFromEmail (cfgEmail : String) : String :=
  jsOrStr (some cfgEmail) ("noreply@example.com")

/-- Lookup in a `Record<string, string>` passed as `templateIds?`. -/
def recordGet (m : Option (List (String × String))) (k : String) :
    Option String :=
  m.bind (fun l => (l.find? (fun p => p.1 == k)).map (fun p => p.2))

/-- `transformSendEmail` from `flow-creator.ts`. -/
def transformSendEmail (cfgEmail : String) (a : SendEmailA)
    (settings : Option FlowSettings)
    (templateIds : Option (List (String × String))) : KlaviyoAPIAction :=
  let smartSending :=
    resolveSetting a.smart_sending (settings.bind FlowSettings.smart_sending) true
  let utmTracking :=
    resolveSetting a.utm_tracking (settings.bind FlowSettings.utm_tracking) false
  let templateId := recordGet templateIds a.id
  { temporary_id := a.id
    type := "send-email"
    links := .linear (jsOrNull a.next)
    data := .email
      { name := a.name
        subject_line := jsOrStr a.subject_line (a.name ++ " Subject")
        preview_text := jsOrStr a.preview_text ("")
        from_email := defaultFromEmail cfgEmail
        from_label := "Store"
        reply_to_email := defaultFromEmail cfgEmail
        cc_email := none
        bcc_email := none
        smart_sending_enabled := smartSending
        transactional := false
        add_tracking_params := utmTracking
        custom_tracking_params := none
        additional_filters := none
        template_id := jsOrNull templateId }
      ("draft") }

/-- `transformSendSms` from `flow-creator.ts`. -/
def transformSendSms (a : SendSmsA) (settings : Option FlowSettings) :
    KlaviyoAPIAction :=
  let smartSending :=
    resolveSetting a.smart_sending (settings.bind FlowSettings.smart_sending) true
  let utmTracking :=
    resolveSetting a.utm_tracking (settings.bind FlowSettings.utm_tracking) false
  { temporary_id := a.id
    type := "send-sms"
    links := .linear (jsOrNull a.next)
    data := .sms
      { name := a.name
        body := jsOrStr a.body ("")
        smart_sending_enabled := smartSending
        transactional := false
        add_tracking_params := utmTracking
        respecting_sms_quiet_hours := true
        custom_tracking_params := none
        additional_filters := none }
      ("draft") }

/-- The consent placeholder condition built by `buildConditionFilter`. -/
def consentCondition (channel : String) : FilterCondition :=
  .marketingConsent channel true ("subscribed") none

/-- `buildConditionFilter` from `flow-creator.ts`.  Metric-based and
unknown condition kinds compile to the consent placeholder (the source
additionally logs a fidelity warning); `custom` passes the raw filter
through, defaulting to empty condition groups when absent. -/
def buildConditionFilter (a : CondSplitA) : TriggerFilter :=
  match a.condition_type with
  | .hasOpenedEmail | .hasClickedEmail | .hasReceivedEmail =>
    ⟨[⟨[consentCondition ("email")]⟩]⟩
  | .profileMarketingConsent =>
    ⟨[⟨[consentCondition
        (jsOrStr (a.condition_config.bind ConditionConfig.channel) ("email"))]⟩]⟩
  | .custom =>
    match a.condition_config.bind ConditionConfig.profile_filter with
    | some pf => pf
    | none => ⟨[]⟩
  | _ => ⟨[⟨[consentCondition ("email")]⟩]⟩

/-- `transformConditionalSplit` from `flow-creator.ts`. -/
def transformConditionalSplit (a : CondSplitA) : KlaviyoAPIAction :=
  { temporary_id := a.id
    type := "conditional-split"
    links := .split (jsOrNull a.next_if_true) (jsOrNull a.next_if_false)
    data := .conditionalSplit (buildConditionFilter a) }

/-- The fixed message of the error thrown for an A/B split (two string
literals concatenated in the source). -/
def abSplitErrorMessage : String :=
  "A/B splits are not supported by the Klaviyo API. " ++
  "Use browser mode or remove the A/B split from this flow."

/-- `transformAction` from `flow-creator.ts`: dispatch on the action
variant; A/B splits throw. -/
def transformAction (cfgEmail : String) (action : FlowAction)
    (settings : Option FlowSettings)
    (templateIds : Option (List (String × String))) :
    Except CompileError KlaviyoAPIAction :=
  match action with
  | .timeDelay a => .ok (transformTimeDelay a)
  | .sendEmail a => .ok (transformSendEmail cfgEmail a settings templateIds)
  | .sendSms a => .ok (transformSendSms a settings)
  | .conditionalSplit a => .ok (transformConditionalSplit a)
  | .abSplit _ => .error ⟨abSplitErrorMessage⟩

/-- `transformActions`: `actions.map(transformAction)` — a JavaScript
`map` with a throwing callback aborts at the first throwing element. -/
def transformActions (cfgEmail : String) (actions : List FlowAction)
    (settings : Option FlowSettings)
    (templateIds : Option (List (String × String))) :
    Except CompileError (List KlaviyoAPIAction) :=
  match actions with
  | [] => .ok []
  | a :: rest =>
    match transformAction cfgEmail a settings templateIds with
    | .error e => .error e
    | .ok x =>
      match transformActions cfgEmail rest settings templateIds with
      | .error e => .error e
      | .ok xs => .ok (x :: xs)

/-- The `attributes.definition` object assembled by `buildPayload`. -/
structure FlowPayloadDefinition where
  triggers : List KlaviyoAPITrigger
  profile_filter : Option TriggerFilter
  actions : List KlaviyoAPIAction
  entry_action_id : String
deriving DecidableEq

/-- The `data.attributes` object of the create-flow payload. -/
structure PayloadAttributes where
  name : String
  definition : FlowPayloadDefinition
deriving DecidableEq

/-- `KlaviyoCreateFlowPayload` (the `data` object). -/
structure KlaviyoCreateFlowPayload where
  type : String
  attributes : PayloadAttributes
deriving DecidableEq

/-- `buildPayload` from `flow-creator.ts`.  `definition.profile_filter ||
null` is the identity on the optional filter (an object is truthy). -/
def buildPayload (f : FlowDefinition) (trigger : KlaviyoAPITrigger)
    (actions : List KlaviyoAPIAction) : KlaviyoCreateFlowPayload :=
  { type := "flow"
    attributes :=
      { name := f.name
        definition :=
          { triggers := [trigger]
            profile_filter := f.profile_filter
            actions := actions
            entry_action_id := f.entry_action_id } } }

/-- Projection: the `smart_sending_enabled` flag of a compiled message
action (none for non-message actions). -/
def KlaviyoAPIAction.smartSendingFlag : KlaviyoAPIAction → Option Bool
  | ⟨_, _, _, .email m _⟩ => some m.smart_sending_enabled
  | ⟨_, _, _, .sms m _⟩ => some m.smart_sending_enabled
  | _ => none

/-- Projection: the `add_tracking_params` flag of a compiled message
action (none for non-message actions). -/
def KlaviyoAPIAction.utmFlag : KlaviyoAPIAction → Option Bool
  | ⟨_, _, _, .email m _⟩ => some m.add_tracking_params
  | ⟨_, _, _, .sms m _⟩ => some m.add_tracking_params
  | _ => none

/-- Projection: the `delay_until_weekdays` field of a compiled time
delay (none for other actions). -/
def KlaviyoAPIAction.delayWeekdays : KlaviyoAPIAction → Option (List Weekday)
  | ⟨_, _, _, .timeDelay d⟩ => d.delay_until_weekdays
  | _ => none

/-! ## Graph traversal (`getActionSequence` in `src/browser/flow-builder.ts`)

The source builds a `Map` from action ids to actions (later entries
overwrite earlier ones), then runs a recursive depth-first walk from
`entry_action_id`, guarded by a `visited` set (`if (!id ||
visited.has(id)) return;` — the empty string is falsy), emitting each
found action and recursing on its typed outgoing links in a fixed order.
Finally every action not visited is appended in definition order.

The walk is embedded with an explicit worklist that mirrors the
recursion: `traverseMany amap fuel (nxt :: rest) st` performs the
recursive call `traverse(nxt)` and then continues with `rest`, exactly
like the sequenced recursive calls in the source.  `fuel` decreases on
every step and only bounds the recursion; `getActionSequence` supplies
`3 * |actions| + 3`, which exceeds the total number of steps any walk
can take (each action is expanded at most once, contributing at most two
successor steps and one list-end step), so the cutoff branches are
unreachable — `traversal_closed` below proves the resulting visited set
is closed under successor links, which is exactly what an unbounded walk
guarantees. -/

/-- The mutable state of the walk: the emitted actions (`ordered`) and
the visited id set (`visited`, most recent first). -/
structure TState where
  ordered : List FlowAction
  visited : List String
deriving DecidableEq

/-- The typed outgoing links followed by the walk, in the source's
order: linear `next`; split true-branch then false-branch; A/B variant-A
then variant-B. -/
def FlowAction.succs : FlowAction → List (Option String)
  | .timeDelay a => [a.next]
  | .sendEmail a => [a.next]
  | .sendSms a => [a.next]
  | .conditionalSplit a => [a.next_if_true, a.next_if_false]
  | .abSplit a => [a.next_variant_a, a.next_variant_b]

/-- The id → action lookup built by `forEach(set)`: the last action with
a given id wins. -/
def actionMapGet (actions : List FlowAction) (i : String) :
    Option FlowAction :=
  actions.reverse.find? (fun a => a.id == i)

/-- The depth-first walk over a worklist of pending `traverse` calls. -/
def traverseMany (amap : String → Option FlowAction) :
    Nat → List (Option String) → TState → TState
  | 0, _, st => st
  | _ + 1, [], st => st
  | fuel + 1, none :: rest, st => traverseMany amap fuel rest st
  | fuel + 1, some i :: rest, st =>
    if i = "" ∨ i ∈ st.visited then
      traverseMany amap fuel rest st
    else
      match amap i with
      | none => traverseMany amap fuel rest ⟨st.ordered, i :: st.visited⟩
      | some a =>
        traverseMany amap fuel rest
          (traverseMany amap fuel a.succs ⟨st.ordered ++ [a], i :: st.visited⟩)

/-- Fuel supplied to the walk (strictly more than any walk can use). -/
def traversalFuel (f : FlowDefinition) : Nat :=
  3 * f.actions.length + 3

/-- The final state of the walk from `entry_action_id`. -/
def traversalResult (f : FlowDefinition) : TState :=
  traverseMany (actionMapGet f.actions) (traversalFuel f)
    [some f.entry_action_id] ⟨[], []⟩

/-- The ids visited by the walk — operationally, the ids reachable from
the entry action. -/
def reachableIds (f : FlowDefinition) : List String :=
  (traversalResult f).visited

/-- `getActionSequence`: the walk's emissions followed by every
unvisited action in original definition order. -/
def getActionSequence (f : FlowDefinition) : List FlowAction :=
  (traversalResult f).ordered ++
    f.actions.filter (fun a => decide (FlowAction.id a ∉ reachableIds f))

/-- Spec-level reachability: ids reachable from `entry_action_id` by
following typed outgoing links of actions in the flow (falsy/empty link
targets are not followed, matching the walk's guard). -/
inductive Reach (f : FlowDefinition) : String → Prop where
  | entry : f.entry_action_id ≠ "" → Reach f f.entry_action_id
  | step {i j : String} {a : FlowAction} : Reach f i →
      actionMapGet f.actions i = some a → some j ∈ a.succs → j ≠ "" →
      Reach f j

/-- Walk-state invariant: every emitted action is the map's action for
its id, emitted ids are distinct and visited, and every visited id that
the map resolves has been emitted. -/
structure TInv (amap : String → Option FlowAction) (st : TState) : Prop where
  mem_map : ∀ a ∈ st.ordered, amap (FlowAction.id a) = some a
  nodupIds : (st.ordered.map FlowAction.id).Nodup
  idsVisited : ∀ a ∈ st.ordered, FlowAction.id a ∈ st.visited
  covered : ∀ i ∈ st.visited, ∀ b, amap i = some b →
    ∃ a ∈ st.ordered, FlowAction.id a = i

/-! ## UI backend (`BrowserFlowBuilder.addAction`)

The browser builder walks `getActionSequence` and, for each action,
drags a sidebar item whose label is chosen by a total `switch`; the
`default` branch (hit by `ab-split` among the typed variants) drags
`'Email'`.  No variant throws. -/

/-- The sidebar label chosen by `addAction`'s `switch`. -/
def sidebarLabel : FlowAction → String
  | .timeDelay _ => "Time delay"
  | .sendEmail _ => "Email"
  | .sendSms _ => "Text message"
  | .conditionalSplit _ => "Conditional split"
  | .abSplit _ => "Email"

/-- The UI compilation: the traversal order paired with each action's
sidebar drag label.  Total — the UI backend never throws a capability
error. -/
def compileForUI (f : FlowDefinition) : List (String × String) :=
  (getActionSequence f).map (fun a => (FlowAction.id a, sidebarLabel a))

/-! ## Validator (`src/utils/validator.ts`)

A pure function from a flow definition to `{valid, errors, warnings}`.
The source only reads its argument (it pushes onto local `errors` /
`warnings` arrays and never assigns to `definition`), so the embedding
is a plain function.  Runtime guards that are vacuous on well-typed data
(`!definition.trigger`, `Array.isArray(...)`, the `validModes` /
`validUnits` membership checks on closed union types) are translated
with their always-taken branch; the membership checks are kept
syntactically via the string tables so the correspondence is visible. -/

/-- `ValidationResult` from `validator.ts`. -/
structure ValidationResult where
  valid : Bool
  errors : List String
  warnings : List String
deriving DecidableEq

/-- The JSON string of a re-entry mode. -/
def reentryModeString : ReentryMode → String
  | .once => "once"
  | .multiple => "multiple"
  | .timeBased => "time-based"

/-- The JSON string of a re-entry unit. -/
def reentryUnitString : ReentryUnit → String
  | .hours => "hours"
  | .days => "days"
  | .weeks => "weeks"

/-- String interpolation of a possibly-undefined unit
(`` `${reentry.unit}` `` prints `undefined` for a missing field). -/
def showOptReentryUnit : Option ReentryUnit → String
  | none => "undefined"
  | some u => reentryUnitString u

/-- `validateTrigger`: trigger-type-specific required fields. -/
def validateTrigger (t : FlowTrigger) : List String :=
  match t with
  | .metric m =>
    if m.metric_name = "" ∧ jsFalsyOpt m.metric_id then
      ["Metric trigger requires either metric_name or metric_id."]
    else []
  | .list l =>
    if l.list_name = "" ∧ jsFalsyOpt l.list_id then
      ["List trigger requires either list_name or list_id."]
    else []
  | .dateProperty d =>
    if d.property_name = "" then
      ["Date trigger requires property_name."]
    else []

/-- The `(field, target)` pairs checked by `validateActionLinks`, one
entry per link read in the source's `switch`, in source order. -/
def actionOutLinks : FlowAction → List (String × Option String)
  | .timeDelay a => [("next", a.next)]
  | .sendEmail a => [("next", a.next)]
  | .sendSms a => [("next", a.next)]
  | .conditionalSplit a =>
    [("next_if_true", a.next_if_true), ("next_if_false", a.next_if_false)]
  | .abSplit a =>
    [("next_variant_a", a.next_variant_a), ("next_variant_b", a.next_variant_b)]

/-- One link check: `if (a.next && !validIds.has(a.next)) errors.push(...)`
(a truthy target that resolves to no action id). -/
def linkError (aid field : String) (target : Option String)
    (validIds : List String) : List String :=
  match target with
  | none => []
  | some t =>
    if t ≠ "" ∧ t ∉ validIds then
      ["Action \"" ++ aid ++ "\" has " ++ field ++ "=\"" ++ t ++
        "\" which doesn\x27t exist."]
    else []

/-- `validateActionLinks`: the per-variant link checks, via the link
table above (same fields, same order as the source's `switch`). -/
def validateActionLinks (a : FlowAction) (validIds : List String) :
    List String :=
  (actionOutLinks a).flatMap
    (fun p => linkError (FlowAction.id a) p.1 p.2 validIds)

/-- `validateReentry` from `validator.ts`. -/
def validateReentry (r : ReentryConfig) : List String :=
  let validModes := ["once", "multiple", "time-based"]
  if reentryModeString r.mode ∉ validModes then
    ["settings.reentry.mode must be one of: once, multiple, time-based. Got: \"" ++
      reentryModeString r.mode ++ "\"."]
  else if r.mode = ReentryMode.timeBased then
    (if (match r.value with
        | none => true
        | some v => decide (v ≤ 0)) then
      ["settings.reentry with mode \"time-based\" requires a positive \"value\"."]
    else []) ++
    (let validUnits := ["hours", "days", "weeks"]
    if (match r.unit with
        | none => true
        | some u => decide (reentryUnitString u ∉ validUnits)) then
      ["settings.reentry.unit must be one of: hours, days, weeks. Got: \"" ++
        showOptReentryUnit r.unit ++ "\"."]
    else [])
  else []

/-- First occurrences of the elements of a list, in insertion order
(the key order of the `idCounts` record built by the source). -/
def firstOccurrencesFrom : List String → List String → List String
  | [], _ => []
  | x :: xs, seen =>
    if x ∈ seen then firstOccurrencesFrom xs seen
    else x :: firstOccurrencesFrom xs (x :: seen)

/-- First occurrences of the elements of a list, in insertion order. -/
def firstOccurrences (l : List String) : List String :=
  firstOccurrencesFrom l []

/-- `validateFlowDefinition` from `validator.ts`: required fields,
trigger fields, entry resolution, id uniqueness, link resolution,
re-entry structure, filter structure.  `valid` iff no errors. -/
def validateFlowDefinition (d : FlowDefinition) : ValidationResult :=
  let nameErrs :=
    if d.name = "" ∨ strTrim d.name = "" then ["Flow name is required."] else []
  let triggerErrs := validateTrigger d.trigger
  let actionsErrs :=
    if d.actions.length = 0 then ["Flow must have at least one action."] else []
  let entryErrs :=
    if d.entry_action_id = "" then
      ["entry_action_id is required — it must reference the first action."]
    else []
  let linkBlock :=
    if d.actions.length > 0 then
      let actionIds := d.actions.map FlowAction.id
      let entryMissing :=
        if d.entry_action_id ≠ "" ∧ d.entry_action_id ∉ actionIds then
          ["entry_action_id \"" ++ d.entry_action_id ++
            "\" does not match any action ID."]
        else []
      let dupErrs :=
        (firstOccurrences actionIds).flatMap (fun i =>
          let c := actionIds.count i
          if c > 1 then
            ["Duplicate action ID: \"" ++ i ++ "\" appears " ++ toString c ++
              " times."]
          else [])
      let linkErrs := d.actions.flatMap (fun a => validateActionLinks a actionIds)
      entryMissing ++ dupErrs ++ linkErrs
    else []
  let reentryErrs :=
    match d.settings with
    | some s =>
      match s.reentry with
      | some r => validateReentry r
      | none => []
    | none => []
  let pfWarnings :=
    match d.profile_filter with
    | some pf =>
      if pf.condition_groups.length = 0 then
        ["profile_filter has empty condition_groups — it will have no effect."]
      else []
    | none => []
  let tfWarnings :=
    match d.trigger with
    | .metric m =>
      match m.trigger_filter with
      | some tf =>
        if tf.condition_groups.length = 0 then
          ["trigger_filter has empty condition_groups — it will have no effect."]
        else []
      | none => []
    | _ => []
  let errors :=
    nameErrs ++ triggerErrs ++ actionsErrs ++ entryErrs ++ linkBlock ++
      reentryErrs
  let warnings := pfWarnings ++ tfWarnings
  { valid := errors.isEmpty, errors := errors, warnings := warnings }

/-! ## Retry layer (`withRetry` in `src/utils/retry.ts`)

The asynchronous operation is modelled as a function from the attempt
number (starting at 1) to a result; the observable behaviour of a run —
how many times the operation was invoked, the arguments passed to
`sleep`, the log lines emitted, and the returned value or thrown error —
is collected in a `RetryTrace`.  `Except.error none` models the
degenerate `throw lastError!` with a null `lastError` (only possible
when `maxAttempts < 1`). -/

/-- A JavaScript `Error`: a `name` and a `message`. -/
structure KError where
  name : String
  message : String
deriving DecidableEq

/-- `RetryOptions` (all fields present). -/
structure RetryOptions where
  maxAttempts : Nat
  baseDelay : Nat
  backoffFactor : Nat
  maxDelay : Nat
  retryableErrors : Option (List String) := none
deriving DecidableEq

/-- `DEFAULT_RETRY_OPTIONS`. -/
def defaultRetryOptions : RetryOptions :=
  { maxAttempts := 3, baseDelay := 1000, backoffFactor := 2, maxDelay := 15000 }

/-- The `Partial<RetryOptions>` argument: absent fields keep defaults. -/
structure RetryOverrides where
  maxAttempts : Option Nat := none
  baseDelay : Option Nat := none
  backoffFactor : Option Nat := none
  maxDelay : Option Nat := none
  retryableErrors : Option (List String) := none
deriving DecidableEq

/-- `{ ...DEFAULT_RETRY_OPTIONS, ...options }`. -/
def mergeRetryOptions (o : RetryOverrides) : RetryOptions :=
  { maxAttempts := o.maxAttempts.getD defaultRetryOptions.maxAttempts
    baseDelay := o.baseDelay.getD defaultRetryOptions.baseDelay
    backoffFactor := o.backoffFactor.getD defaultRetryOptions.backoffFactor
    maxDelay := o.maxDelay.getD defaultRetryOptions.maxDelay
    retryableErrors := o.retryableErrors }

/-- One pattern match: `lastError.message.includes(e) ||
lastError.name.includes(e)`. -/
def errorMatches (e : KError) (pat : String) : Bool :=
  strContains e.message pat || strContains e.name pat

/-- The fail-fast test: with a non-empty `retryableErrors` list, an
error matching no pattern aborts immediately. -/
def shouldAbort (opts : RetryOptions) (e : KError) : Bool :=
  match opts.retryableErrors with
  | none => false
  | some pats =>
    if pats.length > 0 then ! pats.any (errorMatches e) else false

/-- The trace of one `withRetry` run: number of operation invocations,
sleep durations in order, log lines in order, and the outcome. -/
structure RetryTrace (T : Type) where
  attemptsMade : Nat
  delays : List Nat
  log : List String
  outcome : Except (Option KError) T

/-- The backoff delay slept before attempt `attempt + 1`:
`min(baseDelay * backoffFactor ^ (attempt - 1), maxDelay)`. -/
def backoffDelay (opts : RetryOptions) (attempt : Nat) : Nat :=
  min (opts.baseDelay * opts.backoffFactor ^ (attempt - 1)) opts.maxDelay

/-- The retry loop.  `rem` is the number of loop iterations left
(`withRetry` starts it at `maxAttempts` with `attempt = 1`); `delays`
and `log` accumulate in reverse. -/
def retryLoop {T : Type} (op : Nat → Except KError T) (label : String)
    (opts : RetryOptions) :
    Nat → Nat → List Nat → List String → Option KError → RetryTrace T
  | 0, attempt, delays, log, lastErr =>
    ⟨attempt - 1, delays.reverse, log.reverse, .error lastErr⟩
  | rem + 1, attempt, delays, log, _ =>
    match op attempt with
    | .ok v =>
      let log :=
        if attempt > 1 then
          (label ++ " succeeded on attempt " ++ toString attempt) :: log
        else log
      ⟨attempt, delays.reverse, log.reverse, .ok v⟩
    | .error e =>
      if shouldAbort opts e then
        ⟨attempt, delays.reverse,
          ((label ++ " failed with non-retryable error: " ++ e.message) ::
            log).reverse,
          .error (some e)⟩
      else if attempt < opts.maxAttempts then
        let d := backoffDelay opts attempt
        let w := label ++ " failed (attempt " ++ toString attempt ++ "/" ++
          toString opts.maxAttempts ++ "): " ++ e.message ++
          ". Retrying in " ++ toString d ++ "ms..."
        retryLoop op label opts rem (attempt + 1) (d :: delays) (w :: log)
          (some e)
      else
        let w := label ++ " failed after " ++ toString opts.maxAttempts ++
          " attempts: " ++ e.message
        retryLoop op label opts rem (attempt + 1) delays (w :: log) (some e)

/-- `withRetry` from `retry.ts`. -/
def withRetry {T : Type} (op : Nat → Except KError T) (label : String)
    (options : RetryOverrides) : RetryTrace T :=
  let opts := mergeRetryOptions options
  retryLoop op label opts opts.maxAttempts 1 [] [] none

/-! ## Concrete example flows

Small flows used to instantiate the theorems: the spec's 2-cycle
scenario, a flow with an action unreachable from the entry, a flow
containing an A/B split, a flow with a dangling link, and a plain
two-action flow. -/

/-- A simple list trigger shared by the example flows. -/
def exTrigger : FlowTrigger := .list { list_name := "Newsletter" }

/-- The 2-cycle scenario's action `A` (`A.next = B`). -/
def cycleActA : FlowAction := .timeDelay { id := "A", delay_value := 1, delay_unit := .hours, next := some ("B") }

/-- The 2-cycle scenario's action `B` (`B.next = A`). -/
def cycleActB : FlowAction := .timeDelay { id := "B", delay_value := 2, delay_unit := .days, next := some ("A") }

/-- The spec's 2-cycle scenario: entry `A`, `A.next = B`, `B.next = A`. -/
def cycleFlow : FlowDefinition :=
  { name := "Cycle", trigger := exTrigger, actions := [cycleActA, cycleActB]
    entry_action_id := "A" }

/-- Entry action of the disconnected-flow example. -/
def islandActA : FlowAction := .sendEmail { id := "A", name := "Welcome" }

/-- An action no link points to — unreachable from the entry. -/
def islandActC : FlowAction := .sendEmail { id := "C", name := "Orphan" }

/-- A flow whose second action is unreachable from the entry. -/
def islandFlow : FlowDefinition :=
  { name := "Island", trigger := exTrigger, actions := [islandActA, islandActC]
    entry_action_id := "A" }

/-- An A/B split action with id `ab1`. -/
def abAct : FlowAction := .abSplit { id := "ab1" }

/-- A flow containing one A/B split. -/
def abFlow : FlowDefinition :=
  { name := "AB", trigger := exTrigger, actions := [abAct]
    entry_action_id := "ab1" }

/-- An email action whose `next` names the nonexistent id `ghost`. -/
def danglingAct : FlowAction :=
  .sendEmail { id := "a1", name := "E", next := some ("ghost") }

/-- A flow whose single action has `next = "ghost"`, an id that exists
nowhere in the flow. -/
def danglingFlow : FlowDefinition :=
  { name := "Dangling", trigger := exTrigger
    actions := [danglingAct]
    entry_action_id := "a1" }

/-- A plain two-action flow (time delay, then email). -/
def simpleFlow : FlowDefinition :=
  { name := "Simple", trigger := exTrigger
    actions := [.timeDelay { id := "t1", delay_value := 1, delay_unit := .hours, next := some ("e1") },
                .sendEmail { id := "e1", name := "Mail" }]
    entry_action_id := "t1" }

/-! ## Theorems -/

/-- A string occurs in any concatenation that embeds it between a prefix
and a suffix. -/
theorem strContains_parts (p m s : String) :
    strContains (p ++ m ++ s) m = true := by
  apply decide_eq_true
  exact ⟨p.data, s.data, by simp⟩

/-- A string occurs in any concatenation starting with it. -/
theorem strContains_left (m s : String) :
    strContains (m ++ s) m = true := by
  apply decide_eq_true
  exact ⟨[], s.data, by simp⟩

/-- A contained substring stays contained when the string is extended on
the right. -/
theorem strContains_mono (s s' m : String) (h : strContains s m = true) :
    strContains (s ++ s') m = true := by
  have h' : m.data <:+: s.data := of_decide_eq_true h
  apply decide_eq_true
  obtain ⟨u, v, huv⟩ := h'
  exact ⟨u, v ++ s'.data, by rw [String.data_append, ← huv]; simp⟩

/-- A string contains its own final segment. -/
theorem strContains_suffix (p m : String) : strContains (p ++ m) m = true := by
  apply decide_eq_true
  exact ⟨p.data, [], by simp⟩

/-! ### Retry lemmas -/

/-- Full characterization of the retry loop when every remaining attempt
fails with a non-aborting error: the loop runs all remaining iterations,
sleeps the backoff delay after each non-final attempt, logs a retry
warning per non-final attempt and a final failure line, and re-throws
the last error. -/
theorem retryLoop_allFail {T : Type} (op : Nat → Except KError T)
    (label : String) (opts : RetryOptions) (err : Nat → KError)
    (herr : ∀ k, 1 ≤ k → k ≤ opts.maxAttempts →
      op k = .error (err k) ∧ shouldAbort opts (err k) = false) :
    ∀ (rem attempt : Nat) (delays : List Nat) (log : List String)
      (le : Option KError),
      rem + attempt = opts.maxAttempts + 1 → 1 ≤ attempt →
      retryLoop op label opts rem attempt delays log le =
        ⟨opts.maxAttempts,
          delays.reverse ++
            (List.range' attempt (opts.maxAttempts - attempt)).map
              (backoffDelay opts),
          log.reverse ++
            (List.range' attempt (opts.maxAttempts - attempt)).map
              (fun k => label ++ " failed (attempt " ++ toString k ++ "/" ++
                toString opts.maxAttempts ++ "): " ++ (err k).message ++
                ". Retrying in " ++ toString (backoffDelay opts k) ++
                "ms...") ++
            (if attempt ≤ opts.maxAttempts then
              [label ++ " failed after " ++ toString opts.maxAttempts ++
                " attempts: " ++ (err opts.maxAttempts).message]
            else []),
          .error (if attempt ≤ opts.maxAttempts then
            some (err opts.maxAttempts) else le)⟩ := by
  intro rem
  induction rem with
  | zero =>
    intro attempt delays log le hsum h1
    have hatt : attempt = opts.maxAttempts + 1 := by omega
    subst hatt
    have hlt : ¬ (opts.maxAttempts + 1 ≤ opts.maxAttempts) := by omega
    have h0 : opts.maxAttempts - (opts.maxAttempts + 1) = 0 := by omega
    simp [retryLoop, hlt, h0]
  | succ rem ih =>
    intro attempt delays log le hsum h1
    have hle : attempt ≤ opts.maxAttempts := by omega
    obtain ⟨hop, habort⟩ := herr attempt h1 hle
    by_cases hlt : attempt < opts.maxAttempts
    · have hstep : retryLoop op label opts (rem + 1) attempt delays log le =
          retryLoop op label opts rem (attempt + 1)
            (backoffDelay opts attempt :: delays)
            ((label ++ " failed (attempt " ++ toString attempt ++ "/" ++
              toString opts.maxAttempts ++ "): " ++ (err attempt).message ++
              ". Retrying in " ++ toString (backoffDelay opts attempt) ++
              "ms...") :: log)
            (some (err attempt)) := by
        simp [retryLoop, hop, habort, hlt]
      rw [hstep, ih (attempt + 1) _ _ _ (by omega) (by omega)]
      have hsplit : opts.maxAttempts - attempt =
          (opts.maxAttempts - (attempt + 1)) + 1 := by omega
      have hle' : attempt + 1 ≤ opts.maxAttempts := by omega
      rw [hsplit, List.range'_succ]
      simp [hle, hle']
    · have hattmax : attempt = opts.maxAttempts := by omega
      have hrem : rem = 0 := by omega
      subst hattmax
      subst hrem
      have hstep : retryLoop op label opts 1 opts.maxAttempts delays log le =
          retryLoop op label opts 0 (opts.maxAttempts + 1) delays
            ((label ++ " failed after " ++ toString opts.maxAttempts ++
              " attempts: " ++ (err opts.maxAttempts).message) :: log)
            (some (err opts.maxAttempts)) := by
        simp [retryLoop, hop, habort, hlt]
      rw [hstep, ih (opts.maxAttempts + 1) _ _ _ (by omega) (by omega)]
      have hlt' : ¬ (opts.maxAttempts + 1 ≤ opts.maxAttempts) := by omega
      have h0 : opts.maxAttempts - (opts.maxAttempts + 1) = 0 := by omega
      have h0' : opts.maxAttempts - opts.maxAttempts = 0 := by omega
      simp [hlt', h0, h0', hle]

/-- Claim C4: an operation that fails on every attempt with a retryable
error is invoked exactly `maxAttempts` times, and the sleeps between
attempts are exactly the backoff delays — the delay before attempt
`k + 1` is `min(baseDelay * backoffFactor ^ (k - 1), maxDelay)`. -/
theorem claim_C4 {T : Type} (op : Nat → Except KError T) (label : String)
    (options : RetryOverrides) (err : Nat → KError)
    (herr : ∀ k, 1 ≤ k → k ≤ (mergeRetryOptions options).maxAttempts →
      op k = .error (err k) ∧
      shouldAbort (mergeRetryOptions options) (err k) = false) :
    (withRetry op label options).attemptsMade =
      (mergeRetryOptions options).maxAttempts ∧
    (withRetry op label options).delays =
      (List.range' 1 ((mergeRetryOptions options).maxAttempts - 1)).map
        (backoffDelay (mergeRetryOptions options)) ∧
    (∀ k, backoffDelay (mergeRetryOptions options) k =
      min ((mergeRetryOptions options).baseDelay *
          (mergeRetryOptions options).backoffFactor ^ (k - 1))
        (mergeRetryOptions options).maxDelay) := by
  have hw : withRetry op label options =
      retryLoop op label (mergeRetryOptions options)
        (mergeRetryOptions options).maxAttempts 1 [] [] none := rfl
  have h := retryLoop_allFail op label (mergeRetryOptions options) err herr
    (mergeRetryOptions options).maxAttempts 1 [] [] none (by omega)
    (by omega)
  rw [hw, h]
  exact ⟨rfl, by simp, fun k => rfl⟩

/-- Witness for C4: an operation that always fails with the same error
under default options is invoked exactly 3 times with sleeps
`[1000, 2000]`. -/
theorem claim_C4_witness :
    (∀ k, 1 ≤ k → k ≤ (mergeRetryOptions {}).maxAttempts →
      (fun _ => (Except.error ⟨"E", "boom"⟩ : Except KError Unit)) k =
        .error ⟨"E", "boom"⟩ ∧
      shouldAbort (mergeRetryOptions {}) ⟨"E", "boom"⟩ = false) ∧
    (withRetry (fun _ => (Except.error ⟨"E", "boom"⟩ : Except KError Unit))
        ("create flow") {}).attemptsMade = 3 ∧
    (withRetry (fun _ => (Except.error ⟨"E", "boom"⟩ : Except KError Unit))
        ("create flow") {}).delays = [1000, 2000] := by
  have h := claim_C4 (fun _ => (Except.error ⟨"E", "boom"⟩ : Except KError Unit))
    ("create flow") {} (fun _ => ⟨"E", "boom"⟩)
    (fun k h1 h2 => ⟨rfl, rfl⟩)
  exact ⟨fun k h1 h2 => ⟨rfl, rfl⟩, h.1, h.2.1.trans (by decide)⟩

/-- Claim C9: when every attempt fails with a retryable error,
`withRetry` exhausts all `maxAttempts` attempts, re-throws the error of
the last attempt, and emits the final log annotation
`<label> failed after <maxAttempts> attempts: <message>`, which contains
the label. -/
theorem claim_C9 {T : Type} (op : Nat → Except KError T) (label : String)
    (options : RetryOverrides) (err : Nat → KError)
    (herr : ∀ k, 1 ≤ k → k ≤ (mergeRetryOptions options).maxAttempts →
      op k = .error (err k) ∧
      shouldAbort (mergeRetryOptions options) (err k) = false)
    (hmax : 1 ≤ (mergeRetryOptions options).maxAttempts) :
    (withRetry op label options).outcome =
      .error (some (err (mergeRetryOptions options).maxAttempts)) ∧
    op (mergeRetryOptions options).maxAttempts =
      .error (err (mergeRetryOptions options).maxAttempts) ∧
    (label ++ " failed after " ++
        toString (mergeRetryOptions options).maxAttempts ++ " attempts: " ++
        (err (mergeRetryOptions options).maxAttempts).message) ∈
      (withRetry op label options).log ∧
    strContains
      (label ++ " failed after " ++
        toString (mergeRetryOptions options).maxAttempts ++ " attempts: " ++
        (err (mergeRetryOptions options).maxAttempts).message) label =
      true := by
  have hw : withRetry op label options =
      retryLoop op label (mergeRetryOptions options)
        (mergeRetryOptions options).maxAttempts 1 [] [] none := rfl
  have h := retryLoop_allFail op label (mergeRetryOptions options) err herr
    (mergeRetryOptions options).maxAttempts 1 [] [] none (by omega)
    (by omega)
  rw [hw, h]
  refine ⟨by simp [hmax], (herr _ hmax le_rfl).1, ?_, ?_⟩
  · simp only [List.reverse_nil, List.nil_append]
    refine List.mem_append.mpr (Or.inr ?_)
    rw [if_pos hmax]
    exact List.mem_singleton_self _
  · apply strContains_mono
    apply strContains_mono
    apply strContains_mono
    exact strContains_left _ _

/-- Witness for C9 at a concrete always-failing operation. -/
theorem claim_C9_witness :
    ((∀ k, 1 ≤ k → k ≤ (mergeRetryOptions {}).maxAttempts →
      (fun _ => (Except.error ⟨"E", "boom"⟩ : Except KError Unit)) k =
        .error ⟨"E", "boom"⟩ ∧
      shouldAbort (mergeRetryOptions {}) ⟨"E", "boom"⟩ = false) ∧
      1 ≤ (mergeRetryOptions {}).maxAttempts) ∧
    ((withRetry (fun _ => (Except.error ⟨"E", "boom"⟩ : Except KError Unit))
        ("create flow") {}).outcome = .error (some ⟨"E", "boom"⟩) ∧
      ("create flow failed after 3 attempts: boom") ∈
        (withRetry (fun _ => (Except.error ⟨"E", "boom"⟩ : Except KError Unit))
          ("create flow") {}).log ∧
      strContains ("create flow failed after 3 attempts: boom")
        ("create flow") = true) := by
  have h := claim_C9 (fun _ => (Except.error ⟨"E", "boom"⟩ : Except KError Unit))
    ("create flow") {} (fun _ => ⟨"E", "boom"⟩)
    (fun k h1 h2 => ⟨rfl, rfl⟩) (by decide)
  exact ⟨⟨fun k h1 h2 => ⟨rfl, rfl⟩, by decide⟩, h.1, h.2.2.1, h.2.2.2⟩

/-! ### Traversal lemmas -/

/-- Unfolding equation for the walk at a pending id. -/
theorem traverseMany_cons_some (amap : String → Option FlowAction)
    (fuel : Nat) (i : String) (rest : List (Option String)) (st : TState) :
    traverseMany amap (fuel + 1) (some i :: rest) st =
      if i = "" ∨ i ∈ st.visited then traverseMany amap fuel rest st
      else
        match amap i with
        | none => traverseMany amap fuel rest ⟨st.ordered, i :: st.visited⟩
        | some a =>
          traverseMany amap fuel rest
            (traverseMany amap fuel a.succs
              ⟨st.ordered ++ [a], i :: st.visited⟩) := rfl

/-- The walk never removes ids from the visited set. -/
theorem traverseMany_visited_mono (amap : String → Option FlowAction) :
    ∀ (fuel : Nat) (l : List (Option String)) (st : TState),
      st.visited ⊆ (traverseMany amap fuel l st).visited := by
  intro fuel
  induction fuel with
  | zero => intro l st x hx; exact hx
  | succ fuel ih =>
    intro l st
    match l with
    | [] => intro x hx; exact hx
    | none :: rest => exact ih rest st
    | some i :: rest =>
      rw [traverseMany_cons_some]
      by_cases hski : i = "" ∨ i ∈ st.visited
      · rw [if_pos hski]; exact ih rest st
      · rw [if_neg hski]
        cases ham : amap i with
        | none =>
          intro x hx
          exact ih rest _ (List.mem_cons_of_mem _ hx)
        | some a =>
          intro x hx
          exact ih rest _
            (ih a.succs _ (List.mem_cons_of_mem _ hx))

/-- The walk preserves the state invariant. -/
theorem traverseMany_inv (amap : String → Option FlowAction)
    (hamap : ∀ i a, amap i = some a → FlowAction.id a = i) :
    ∀ (fuel : Nat) (l : List (Option String)) (st : TState),
      TInv amap st → TInv amap (traverseMany amap fuel l st) := by
  intro fuel
  induction fuel with
  | zero => intro l st h; exact h
  | succ fuel ih =>
    intro l st h
    match l with
    | [] => exact h
    | none :: rest => exact ih rest st h
    | some i :: rest =>
      rw [traverseMany_cons_some]
      by_cases hski : i = "" ∨ i ∈ st.visited
      · rw [if_pos hski]; exact ih rest st h
      · rw [if_neg hski]
        push_neg at hski
        obtain ⟨hne, hni⟩ := hski
        cases ham : amap i with
        | none =>
          apply ih rest
          refine ⟨h.mem_map, h.nodupIds, ?_, ?_⟩
          · intro a ha
            exact List.mem_cons_of_mem _ (h.idsVisited a ha)
          · intro j hj b hb
            rcases List.mem_cons.mp hj with hji | hj'
            · subst hji; rw [ham] at hb; exact absurd hb (by simp)
            · exact h.covered j hj' b hb
        | some a =>
          apply ih rest
          apply ih a.succs
          have haid : FlowAction.id a = i := hamap i a ham
          refine ⟨?_, ?_, ?_, ?_⟩
          · intro x hx
            rcases List.mem_append.mp hx with hx' | hx'
            · exact h.mem_map x hx'
            · have hxa : x = a := List.mem_singleton.mp hx'
              subst hxa
              rw [haid]; exact ham
          · rw [List.map_append]
            refine List.Nodup.append h.nodupIds (by simp) ?_
            intro x hx hx2
            have hxi : x = i := by
              simpa [haid] using hx2
            subst hxi
            obtain ⟨y, hy, hyid⟩ := List.mem_map.mp hx
            exact hni (hyid ▸ h.idsVisited y hy)
          · intro x hx
            rcases List.mem_append.mp hx with hx' | hx'
            · exact List.mem_cons_of_mem _ (h.idsVisited x hx')
            · have hxa : x = a := List.mem_singleton.mp hx'
              subst hxa
              rw [haid]; exact List.mem_cons_self _ _
          · intro j hj b hb
            rcases List.mem_cons.mp hj with hji | hj'
            · subst hji
              exact ⟨a, List.mem_append_right _ (by simp), haid⟩
            · obtain ⟨x, hx, hxid⟩ := h.covered j hj' b hb
              exact ⟨x, List.mem_append_left _ hx, hxid⟩

/-- An action found in the id map has the looked-up id. -/
theorem actionMapGet_id {actions : List FlowAction} {i : String}
    {a : FlowAction} (h : actionMapGet actions i = some a) :
    FlowAction.id a = i := by
  unfold actionMapGet at h
  have hp := @List.find?_some FlowAction (fun x => FlowAction.id x == i)
    a actions.reverse h
  have hp2 : (FlowAction.id a == i) = true := hp
  exact eq_of_beq hp2

/-- An action found in the id map belongs to the action list. -/
theorem actionMapGet_mem {actions : List FlowAction} {i : String}
    {a : FlowAction} (h : actionMapGet actions i = some a) :
    a ∈ actions := by
  have := List.mem_of_find?_eq_some h
  simpa using this

/-- With distinct ids, the map sends each action's id to that action. -/
theorem actionMapGet_self {actions : List FlowAction}
    (hN : (actions.map FlowAction.id).Nodup) {a : FlowAction}
    (ha : a ∈ actions) :
    actionMapGet actions (FlowAction.id a) = some a := by
  have hexists :
      ∃ x, x ∈ actions.reverse ∧
        (FlowAction.id x == FlowAction.id a) = true :=
    ⟨a, by simpa using ha, by simp⟩
  have hsome : (actionMapGet actions (FlowAction.id a)).isSome := by
    unfold actionMapGet
    exact List.find?_isSome.mpr hexists
  obtain ⟨b, hb⟩ := Option.isSome_iff_exists.mp hsome
  have hbid : FlowAction.id b = FlowAction.id a := actionMapGet_id hb
  have hbmem : b ∈ actions := actionMapGet_mem hb
  have hba : b = a := List.inj_on_of_nodup_map hN hbmem ha hbid
  rw [hb, hba]

/-- With distinct action ids, the traversal output is a permutation of
the flow's actions. -/
theorem getActionSequence_perm (f : FlowDefinition)
    (hN : (f.actions.map FlowAction.id).Nodup) :
    (getActionSequence f).Perm f.actions := by
  have hamap : ∀ i a, actionMapGet f.actions i = some a →
      FlowAction.id a = i := fun i a h => actionMapGet_id h
  have hinv0 : TInv (actionMapGet f.actions) ⟨[], []⟩ := by
    refine ⟨?_, ?_, ?_, ?_⟩
    · intro a ha; exact absurd ha (by simp)
    · simp
    · intro a ha; exact absurd ha (by simp)
    · intro i hi; exact absurd hi (by simp)
  have hinv : TInv (actionMapGet f.actions) (traversalResult f) :=
    traverseMany_inv _ hamap _ _ _ hinv0
  have hONodup : (traversalResult f).ordered.Nodup :=
    List.Nodup.of_map _ hinv.nodupIds
  have hfl : f.actions.Nodup := List.Nodup.of_map _ hN
  have hmemO : ∀ x, x ∈ (traversalResult f).ordered ↔
      (x ∈ f.actions ∧ FlowAction.id x ∈ (traversalResult f).visited) := by
    intro x
    constructor
    · intro hx
      exact ⟨actionMapGet_mem (hinv.mem_map x hx), hinv.idsVisited x hx⟩
    · rintro ⟨hxa, hxv⟩
      obtain ⟨y, hy, hyid⟩ :=
        hinv.covered _ hxv x (actionMapGet_self hN hxa)
      have h1 : actionMapGet f.actions (FlowAction.id x) = some y := by
        rw [← hyid]; exact hinv.mem_map y hy
      have h2 : some x = some y := (actionMapGet_self hN hxa).symm.trans h1
      have h3 : x = y := by injection h2
      rw [h3]; exact hy
  have hp1 : (traversalResult f).ordered.Perm
      (f.actions.filter
        (fun a => decide (FlowAction.id a ∈ (traversalResult f).visited))) := by
    refine (List.perm_ext_iff_of_nodup hONodup (hfl.filter _)).mpr ?_
    intro x
    rw [List.mem_filter, hmemO x, decide_eq_true_eq]
  have hfeq : (fun a => decide (FlowAction.id a ∉ reachableIds f)) =
      (fun a => ! decide (FlowAction.id a ∈ (traversalResult f).visited)) := by
    funext a
    simp [reachableIds, decide_not]
  have hsplit : getActionSequence f =
      (traversalResult f).ordered ++
        f.actions.filter
          (fun a => decide (FlowAction.id a ∉ reachableIds f)) := rfl
  rw [hsplit, hfeq]
  exact (hp1.append_right _).trans
    (List.filter_append_perm
      (fun a => decide (FlowAction.id a ∈ (traversalResult f).visited))
      f.actions)

/-! ### Validator lemmas -/

/-- The error list of the validator, spelled out (definitional). -/
theorem validateFlowDefinition_errors (d : FlowDefinition) :
    (validateFlowDefinition d).errors =
      (if d.name = "" ∨ strTrim d.name = "" then ["Flow name is required."]
        else []) ++
      validateTrigger d.trigger ++
      (if d.actions.length = 0 then ["Flow must have at least one action."]
        else []) ++
      (if d.entry_action_id = "" then
        ["entry_action_id is required — it must reference the first action."]
        else []) ++
      (if d.actions.length > 0 then
        (if d.entry_action_id ≠ "" ∧
            d.entry_action_id ∉ d.actions.map FlowAction.id then
          ["entry_action_id \"" ++ d.entry_action_id ++
            "\" does not match any action ID."]
          else []) ++
        ((firstOccurrences (d.actions.map FlowAction.id)).flatMap (fun i =>
          let c := (d.actions.map FlowAction.id).count i
          if c > 1 then
            ["Duplicate action ID: \"" ++ i ++ "\" appears " ++ toString c ++
              " times."]
          else [])) ++
        (d.actions.flatMap
          (fun a => validateActionLinks a (d.actions.map FlowAction.id)))
      else []) ++
      (match d.settings with
        | some s =>
          match s.reentry with
          | some r => validateReentry r
          | none => []
        | none => []) := rfl

/-- Claim C8: whenever some action's variant-appropriate outgoing link
names a (nonempty) id absent from the flow's action ids, the validator
returns `valid := false` with an error string containing both the
offending action's id and the missing target id. -/
theorem claim_C8 (f : FlowDefinition) (a : FlowAction) (fl t : String)
    (ha : a ∈ f.actions) (hl : (fl, some t) ∈ actionOutLinks a)
    (ht : t ≠ "") (hmiss : t ∉ f.actions.map FlowAction.id) :
    (validateFlowDefinition f).valid = false ∧
    ∃ e ∈ (validateFlowDefinition f).errors,
      strContains e (FlowAction.id a) = true ∧
      strContains e t = true := by
  have hlinkerr :
      ("Action \"" ++ FlowAction.id a ++ "\" has " ++ fl ++ "=\"" ++ t ++
        "\" which doesn\x27t exist.") ∈
        validateActionLinks a (f.actions.map FlowAction.id) := by
    unfold validateActionLinks
    refine List.mem_flatMap.mpr ⟨(fl, some t), hl, ?_⟩
    simp [linkError, ht, hmiss]
  have hpos : f.actions.length > 0 :=
    List.length_pos.mpr (List.ne_nil_of_mem ha)
  have hmem :
      ("Action \"" ++ FlowAction.id a ++ "\" has " ++ fl ++ "=\"" ++ t ++
        "\" which doesn\x27t exist.") ∈ (validateFlowDefinition f).errors := by
    rw [validateFlowDefinition_errors]
    refine List.mem_append.mpr (Or.inl ?_)
    refine List.mem_append.mpr (Or.inr ?_)
    rw [if_pos hpos]
    refine List.mem_append.mpr (Or.inr ?_)
    exact List.mem_flatMap.mpr ⟨a, ha, hlinkerr⟩
  refine ⟨?_, ?_⟩
  · have hv : (validateFlowDefinition f).valid =
        (validateFlowDefinition f).errors.isEmpty := rfl
    cases hl' : (validateFlowDefinition f).errors with
    | nil => rw [hl'] at hmem; exact absurd hmem (by simp)
    | cons x xs => rw [hv, hl']; rfl
  · refine ⟨_, hmem, ?_, ?_⟩
    · apply strContains_mono
      apply strContains_mono
      apply strContains_mono
      apply strContains_mono
      apply strContains_mono
      exact strContains_suffix _ _
    · apply strContains_mono
      exact strContains_suffix _ _

/-- Witness for C8 at the concrete dangling-link flow. -/
theorem claim_C8_witness :
    (danglingAct ∈ danglingFlow.actions ∧
      ("next", some ("ghost")) ∈ actionOutLinks danglingAct ∧
      "ghost" ≠ "" ∧
      "ghost" ∉ danglingFlow.actions.map FlowAction.id) ∧
    ((validateFlowDefinition danglingFlow).valid = false ∧
      ∃ e ∈ (validateFlowDefinition danglingFlow).errors,
        strContains e (FlowAction.id danglingAct) = true ∧
        strContains e ("ghost") = true) :=
  ⟨⟨by decide, by decide, by decide, by decide⟩,
    claim_C8 danglingFlow danglingAct ("next") ("ghost") (by decide)
      (by decide) (by decide) (by decide)⟩

/-- The invariant holds for the finished walk of a flow. -/
theorem traversalResult_inv (f : FlowDefinition) :
    TInv (actionMapGet f.actions) (traversalResult f) := by
  have hinv0 : TInv (actionMapGet f.actions) ⟨[], []⟩ := by
    refine ⟨?_, ?_, ?_, ?_⟩
    · intro a ha; exact absurd ha (by simp)
    · simp
    · intro a ha; exact absurd ha (by simp)
    · intro i hi; exact absurd hi (by simp)
  exact traverseMany_inv _ (fun i a h => actionMapGet_id h) _ _ _ hinv0

/-- Soundness of the walk: every visited id satisfies any property that
holds of the initial worklist and is closed under following links. -/
theorem traverseMany_sound (amap : String → Option FlowAction)
    (R : String → Prop)
    (hclosed : ∀ i a j, R i → amap i = some a → some j ∈ a.succs →
      j ≠ "" → R j) :
    ∀ (fuel : Nat) (l : List (Option String)) (st : TState),
      (∀ x ∈ st.visited, R x) →
      (∀ j, some j ∈ l → j ≠ "" → R j) →
      ∀ x ∈ (traverseMany amap fuel l st).visited, R x := by
  intro fuel
  induction fuel with
  | zero => intro l st hv hl x hx; exact hv x hx
  | succ fuel ih =>
    intro l st hv hl
    match l with
    | [] => exact hv
    | none :: rest =>
      exact ih rest st hv (fun j hj => hl j (List.mem_cons_of_mem _ hj))
    | some i :: rest =>
      rw [traverseMany_cons_some]
      by_cases hski : i = "" ∨ i ∈ st.visited
      · rw [if_pos hski]
        exact ih rest st hv (fun j hj => hl j (List.mem_cons_of_mem _ hj))
      · rw [if_neg hski]
        push_neg at hski
        obtain ⟨hne, hni⟩ := hski
        have hRi : R i := hl i (List.mem_cons_self _ _) hne
        have hv1 : ∀ x ∈ (i :: st.visited), R x := by
          intro x hx
          rcases List.mem_cons.mp hx with hxi | hx'
          · subst hxi; exact hRi
          · exact hv x hx'
        cases ham : amap i with
        | none =>
          exact ih rest _ hv1 (fun j hj => hl j (List.mem_cons_of_mem _ hj))
        | some a =>
          refine ih rest _ ?_ (fun j hj => hl j (List.mem_cons_of_mem _ hj))
          exact ih a.succs ⟨st.ordered ++ [a], i :: st.visited⟩ hv1
            (fun j hj hjne => hclosed i a j hRi ham hj hjne)

/-- With enough fuel, the walk visits every (nonempty) worklist id, and
the visited set it produces is closed under the links of every id it
newly visited.  The fuel bound counts the worklist length plus three
steps per not-yet-visited action id. -/
theorem traverseMany_closed (amap : String → Option FlowAction)
    (dom : Finset String)
    (hdom : ∀ i a, amap i = some a → i ∈ dom) :
    ∀ (fuel : Nat) (l : List (Option String)) (st : TState),
      l.length + 3 * (dom.filter (fun i => i ∉ st.visited)).card + 1 ≤ fuel →
      (∀ j, some j ∈ l → j ≠ "" →
        j ∈ (traverseMany amap fuel l st).visited) ∧
      (∀ i, i ∈ (traverseMany amap fuel l st).visited → i ∉ st.visited →
        ∀ a, amap i = some a → ∀ j, some j ∈ a.succs → j ≠ "" →
          j ∈ (traverseMany amap fuel l st).visited) := by
  intro fuel
  induction fuel with
  | zero =>
    intro l st hfuel
    exact absurd hfuel (by omega)
  | succ fuel ih =>
    intro l st hfuel
    match l with
    | [] =>
      constructor
      · intro j hj; exact absurd hj (by simp)
      · intro i hi hni
        exact absurd hi hni
    | none :: rest =>
      have hf' : rest.length +
          3 * (dom.filter (fun i => i ∉ st.visited)).card + 1 ≤ fuel := by
        simp only [List.length_cons] at hfuel; omega
      have h := ih rest st hf'
      constructor
      · intro j hj hjne
        rcases List.mem_cons.mp hj with hji | hj'
        · exact absurd hji (by simp)
        · exact h.1 j hj' hjne
      · exact h.2
    | some i :: rest =>
      rw [traverseMany_cons_some]
      by_cases hski : i = "" ∨ i ∈ st.visited
      · rw [if_pos hski]
        have hf' : rest.length +
            3 * (dom.filter (fun i => i ∉ st.visited)).card + 1 ≤ fuel := by
          simp only [List.length_cons] at hfuel; omega
        have h := ih rest st hf'
        constructor
        · intro j hj hjne
          rcases List.mem_cons.mp hj with hji | hj'
          · have hji' : j = i := by injection hji
            subst hji'
            rcases hski with hski | hski
            · exact absurd hski hjne
            · exact traverseMany_visited_mono amap fuel rest st hski
          · exact h.1 j hj' hjne
        · exact h.2
      · rw [if_neg hski]
        push_neg at hski
        obtain ⟨hne, hni⟩ := hski
        cases ham : amap i with
        | none =>
          have hUle :
              (dom.filter (fun x => x ∉ (i :: st.visited))).card ≤
                (dom.filter (fun x => x ∉ st.visited)).card := by
            apply Finset.card_le_card
            apply Finset.monotone_filter_right
            intro x hx
            exact fun hmem => hx (List.mem_cons_of_mem _ hmem)
          have hf' : rest.length +
              3 * (dom.filter (fun x => x ∉ (i :: st.visited))).card + 1 ≤
                fuel := by
            simp only [List.length_cons] at hfuel; omega
          have h := ih rest ⟨st.ordered, i :: st.visited⟩ hf'
          constructor
          · intro j hj hjne
            rcases List.mem_cons.mp hj with hji | hj'
            · have hji' : j = i := by injection hji
              subst hji'
              exact traverseMany_visited_mono amap fuel rest _
                (List.mem_cons_self _ _)
            · exact h.1 j hj' hjne
          · intro i' hi' hni' a' ham' j hj hjne
            by_cases hii : i' = i
            · subst hii; rw [ham] at ham'
              exact absurd ham' (by simp)
            · have hnotin : i' ∉ (i :: st.visited) := by
                simp only [List.mem_cons, not_or]
                exact ⟨hii, hni'⟩
              exact h.2 i' hi' hnotin a' ham' j hj hjne
        | some a =>
          have hidom : i ∈ dom := hdom i a ham
          have hUdec :
              (dom.filter (fun x => x ∉ (i :: st.visited))).card <
                (dom.filter (fun x => x ∉ st.visited)).card := by
            apply Finset.card_lt_card
            rw [Finset.ssubset_iff_of_subset]
            · refine ⟨i, ?_, ?_⟩
              · rw [Finset.mem_filter]; exact ⟨hidom, hni⟩
              · rw [Finset.mem_filter]
                intro ⟨_, habs⟩
                exact habs (List.mem_cons_self _ _)
            · apply Finset.monotone_filter_right
              intro x hx
              exact fun hmem => hx (List.mem_cons_of_mem _ hmem)
          have hsucc2 : a.succs.length ≤ 2 := by
            cases a <;> simp [FlowAction.succs]
          have hf2 : a.succs.length +
              3 * (dom.filter (fun x => x ∉ (i :: st.visited))).card + 1 ≤
                fuel := by
            simp only [List.length_cons] at hfuel; omega
          have hinner := ih a.succs ⟨st.ordered ++ [a], i :: st.visited⟩ hf2
          have hmonoInner : (i :: st.visited) ⊆
              (traverseMany amap fuel a.succs
                ⟨st.ordered ++ [a], i :: st.visited⟩).visited :=
            traverseMany_visited_mono amap fuel a.succs
              ⟨st.ordered ++ [a], i :: st.visited⟩
          have hUR1 :
              (dom.filter (fun x => x ∉
                (traverseMany amap fuel a.succs
                  ⟨st.ordered ++ [a], i :: st.visited⟩).visited)).card ≤
                (dom.filter (fun x => x ∉ (i :: st.visited))).card := by
            apply Finset.card_le_card
            apply Finset.monotone_filter_right
            intro x hx
            exact fun hmem => hx (hmonoInner hmem)
          have hf3 : rest.length +
              3 * (dom.filter (fun x => x ∉
                (traverseMany amap fuel a.succs
                  ⟨st.ordered ++ [a], i :: st.visited⟩).visited)).card + 1 ≤
                fuel := by
            simp only [List.length_cons] at hfuel; omega
          have houter := ih rest
            (traverseMany amap fuel a.succs
              ⟨st.ordered ++ [a], i :: st.visited⟩) hf3
          have hmonoOuter :
              (traverseMany amap fuel a.succs
                ⟨st.ordered ++ [a], i :: st.visited⟩).visited ⊆
                (traverseMany amap fuel rest
                  (traverseMany amap fuel a.succs
                    ⟨st.ordered ++ [a], i :: st.visited⟩)).visited :=
            traverseMany_visited_mono amap fuel rest _
          constructor
          · intro j hj hjne
            rcases List.mem_cons.mp hj with hji | hj'
            · have hji' : j = i := by injection hji
              subst hji'
              exact hmonoOuter (hmonoInner (List.mem_cons_self _ _))
            · exact houter.1 j hj' hjne
          · intro i' hi' hni' a' ham' j hj hjne
            by_cases hiR1 : i' ∈ (traverseMany amap fuel a.succs
                ⟨st.ordered ++ [a], i :: st.visited⟩).visited
            · by_cases hii : i' = i
              · subst hii
                rw [ham] at ham'
                have haa : a' = a := by injection ham'.symm
                subst haa
                exact hmonoOuter (hinner.1 j hj hjne)
              · have hnotin : i' ∉ (i :: st.visited) := by
                  simp only [List.mem_cons, not_or]
                  exact ⟨hii, hni'⟩
                exact hmonoOuter (hinner.2 i' hiR1 hnotin a' ham' j hj hjne)
            · exact houter.2 i' hi' hiR1 a' ham' j hj hjne

/-- Every id visited by the walk is reachable from the entry. -/
theorem reachableIds_sound (f : FlowDefinition) :
    ∀ x ∈ reachableIds f, Reach f x := by
  have h := traverseMany_sound (actionMapGet f.actions) (Reach f)
    (fun i a j hri ham hj hjne => Reach.step hri ham hj hjne)
    (traversalFuel f) [some f.entry_action_id] ⟨[], []⟩
    (by intro x hx; exact absurd hx (by simp))
    (by
      intro j hj hjne
      have hje : j = f.entry_action_id := by
        have := List.mem_singleton.mp hj
        injection this
      subst hje
      exact Reach.entry hjne)
  exact h

/-- Every id reachable from the entry is visited by the walk (the fuel
supplied by `getActionSequence` is sufficient). -/
theorem reachableIds_complete (f : FlowDefinition) :
    ∀ x, Reach f x → x ∈ reachableIds f := by
  have hdom : ∀ i a, actionMapGet f.actions i = some a →
      i ∈ (f.actions.map FlowAction.id).toFinset := by
    intro i a h
    rw [List.mem_toFinset]
    have := List.mem_map_of_mem FlowAction.id (actionMapGet_mem h)
    rwa [actionMapGet_id h] at this
  have hcard :
      (((f.actions.map FlowAction.id).toFinset).filter
        (fun i => i ∉ (([] : List String)))).card ≤ f.actions.length := by
    calc (((f.actions.map FlowAction.id).toFinset).filter
        (fun i => i ∉ (([] : List String)))).card ≤
        ((f.actions.map FlowAction.id).toFinset).card :=
          Finset.card_le_card (Finset.filter_subset _ _)
      _ ≤ (f.actions.map FlowAction.id).length := List.toFinset_card_le _
      _ = f.actions.length := List.length_map _ _
  have hfuelok : (1 : Nat) +
      3 * (((f.actions.map FlowAction.id).toFinset).filter
        (fun i => i ∉ (([] : List String)))).card + 1 ≤ traversalFuel f := by
    unfold traversalFuel; omega
  have hcl := traverseMany_closed (actionMapGet f.actions) _ hdom
    (traversalFuel f) [some f.entry_action_id] ⟨[], []⟩ hfuelok
  intro x hx
  induction hx with
  | entry hne => exact hcl.1 f.entry_action_id (List.mem_singleton_self _) hne
  | step hri ham hsucc hne ihx =>
    exact hcl.2 _ ihx (by simp) _ ham _ hsucc hne

/-- Claim C1: for every flow (whose action ids are distinct, the stated
data-model invariant), `getActionSequence` returns every action exactly
once — the output length equals the number of actions and the output ids
are a permutation of the flow's action ids — even with cycles or
re-convergent links; in particular the 2-cycle flow with entry `A`,
`A.next = B`, `B.next = A` traverses to exactly `[A, B]`. -/
theorem claim_C1 (f : FlowDefinition)
    (hN : (f.actions.map FlowAction.id).Nodup) :
    (getActionSequence f).length = f.actions.length ∧
    ((getActionSequence f).map FlowAction.id).Perm
      (f.actions.map FlowAction.id) ∧
    getActionSequence cycleFlow = [cycleActA, cycleActB] := by
  have hp := getActionSequence_perm f hN
  exact ⟨hp.length_eq, hp.map _, by decide⟩

/-- Witness for C1: the hypotheses and conclusion hold at the concrete
2-cycle flow. -/
theorem claim_C1_witness :
    (cycleFlow.actions.map FlowAction.id).Nodup ∧
    ((getActionSequence cycleFlow).length = cycleFlow.actions.length ∧
      ((getActionSequence cycleFlow).map FlowAction.id).Perm
        (cycleFlow.actions.map FlowAction.id) ∧
      getActionSequence cycleFlow = [cycleActA, cycleActB]) :=
  ⟨by decide, claim_C1 cycleFlow (by decide)⟩

/-- Claim C2: for every flow (with distinct action ids) containing an
action unreachable from `entry_action_id`, the traversal output still
contains that action, in the appended tail that follows every action
reachable from the entry; the tail is the sublist of `actions` in
original definition order whose ids the walk did not reach, every
action in the front part is reachable, every reachable action of the
flow is in the front part, and the walk's visited set coincides with
spec-level reachability. -/
theorem claim_C2 (f : FlowDefinition)
    (hN : (f.actions.map FlowAction.id).Nodup)
    (a : FlowAction) (ha : a ∈ f.actions)
    (hu : ¬ Reach f (FlowAction.id a)) :
    getActionSequence f =
      (traversalResult f).ordered ++
        f.actions.filter
          (fun x => decide (FlowAction.id x ∉ reachableIds f)) ∧
    a ∈ f.actions.filter
      (fun x => decide (FlowAction.id x ∉ reachableIds f)) ∧
    (∀ b ∈ (traversalResult f).ordered, Reach f (FlowAction.id b)) ∧
    (∀ b ∈ f.actions, Reach f (FlowAction.id b) →
      b ∈ (traversalResult f).ordered) ∧
    (∀ i, i ∈ reachableIds f ↔ Reach f i) := by
  have hsound := reachableIds_sound f
  have hcomp := reachableIds_complete f
  have hinv := traversalResult_inv f
  refine ⟨rfl, ?_, ?_, ?_, fun i => ⟨hsound i, hcomp i⟩⟩
  · rw [List.mem_filter]
    refine ⟨ha, ?_⟩
    rw [decide_eq_true_eq]
    exact fun hmem => hu (hsound _ hmem)
  · intro b hb
    exact hsound _ (hinv.idsVisited b hb)
  · intro b hb hrb
    have hbv : FlowAction.id b ∈ (traversalResult f).visited := hcomp _ hrb
    obtain ⟨y, hy, hyid⟩ :=
      hinv.covered _ hbv b (actionMapGet_self hN hb)
    have h1 : actionMapGet f.actions (FlowAction.id b) = some y := by
      rw [← hyid]; exact hinv.mem_map y hy
    have h2 : some b = some y := (actionMapGet_self hN hb).symm.trans h1
    have h3 : b = y := by injection h2
    rw [h3]; exact hy

/-- Witness for C2 at the concrete flow with an unreachable action. -/
theorem claim_C2_witness :
    ((islandFlow.actions.map FlowAction.id).Nodup ∧
      islandActC ∈ islandFlow.actions ∧
      ¬ Reach islandFlow (FlowAction.id islandActC)) ∧
    (getActionSequence islandFlow =
        (traversalResult islandFlow).ordered ++
          islandFlow.actions.filter
            (fun x => decide (FlowAction.id x ∉ reachableIds islandFlow)) ∧
      islandActC ∈ islandFlow.actions.filter
        (fun x => decide (FlowAction.id x ∉ reachableIds islandFlow)) ∧
      (∀ b ∈ (traversalResult islandFlow).ordered,
        Reach islandFlow (FlowAction.id b)) ∧
      (∀ b ∈ islandFlow.actions, Reach islandFlow (FlowAction.id b) →
        b ∈ (traversalResult islandFlow).ordered) ∧
      (∀ i, i ∈ reachableIds islandFlow ↔ Reach islandFlow i)) :=
  have hu : ¬ Reach islandFlow (FlowAction.id islandActC) := fun h =>
    absurd (reachableIds_complete islandFlow _ h) (by decide)
  ⟨⟨by decide, by decide, hu⟩,
    claim_C2 islandFlow (by decide) islandActC (by decide) hu⟩

/-- Claim C3: `resolveSetting` returns the per-action value when defined,
else the flow default when defined, else the fallback; and the REST
compiler resolves `smart_sending_enabled` with fallback `true` and
`add_tracking_params` with fallback `false` on every send-email and
send-sms action, from the per-action override and the flow-level
default. -/
theorem claim_C3 :
    (∀ (b : Bool) (fd : Option Bool) (fb : Bool),
      resolveSetting (some b) fd fb = b) ∧
    (∀ (b fb : Bool), resolveSetting none (some b) fb = b) ∧
    (∀ fb : Bool, resolveSetting none none fb = fb) ∧
    (∀ (cfgEmail : String) (a : SendEmailA) (settings : Option FlowSettings)
        (tmpl : Option (List (String × String))),
      (transformSendEmail cfgEmail a settings tmpl).smartSendingFlag =
        some (resolveSetting a.smart_sending
          (settings.bind FlowSettings.smart_sending) true) ∧
      (transformSendEmail cfgEmail a settings tmpl).utmFlag =
        some (resolveSetting a.utm_tracking
          (settings.bind FlowSettings.utm_tracking) false)) ∧
    (∀ (a : SendSmsA) (settings : Option FlowSettings),
      (transformSendSms a settings).smartSendingFlag =
        some (resolveSetting a.smart_sending
          (settings.bind FlowSettings.smart_sending) true) ∧
      (transformSendSms a settings).utmFlag =
        some (resolveSetting a.utm_tracking
          (settings.bind FlowSettings.utm_tracking) false)) := by
  refine ⟨fun b fd fb => rfl, fun b fb => rfl, fun fb => rfl, ?_, ?_⟩
  · intro cfgEmail a settings tmpl
    exact ⟨rfl, rfl⟩
  · intro a settings
    exact ⟨rfl, rfl⟩

/-- Transforming a list that contains an A/B split action throws the
fixed capability error (no other action variant throws, so the first
error raised is always this one). -/
theorem transformActions_abSplit {cfgEmail : String}
    {settings : Option FlowSettings}
    {tmpl : Option (List (String × String))} :
    ∀ {actions : List FlowAction},
      (∃ b ∈ actions, ∃ ab, b = FlowAction.abSplit ab) →
      transformActions cfgEmail actions settings tmpl =
        .error ⟨abSplitErrorMessage⟩ := by
  intro actions
  induction actions with
  | nil =>
    rintro ⟨b, hb, _⟩
    exact absurd hb (by simp)
  | cons a rest ih =>
    rintro ⟨b, hb, ab, hab⟩
    rcases List.mem_cons.mp hb with hba | hbr
    · subst hba; subst hab
      simp [transformActions, transformAction]
    · have hr := ih ⟨b, hbr, ab, hab⟩
      cases a with
      | abSplit ab2 => simp [transformActions, transformAction]
      | timeDelay x => simp [transformActions, transformAction, hr]
      | sendEmail x => simp [transformActions, transformAction, hr]
      | sendSms x => simp [transformActions, transformAction, hr]
      | conditionalSplit x => simp [transformActions, transformAction, hr]

/-- Counterexample to C5 as stated: the flow whose single action is the
A/B split with id `ab1` compiles for REST to a thrown error whose
message does not contain the action's id `ab1` — the error does not
name the offending action. -/
theorem claim_C5_counterexample :
    transformActions ("") abFlow.actions abFlow.settings none =
      .error ⟨abSplitErrorMessage⟩ ∧
    FlowAction.id abAct = "ab1" ∧ abAct ∈ abFlow.actions ∧
    strContains abSplitErrorMessage ("ab1") = false :=
  ⟨rfl, rfl, by decide, by decide⟩

/-- Claim C5 (amended): for every flow containing an ab-split action
(ids distinct per the data-model invariant), compiling the actions for
the REST backend throws the capability error with the fixed message that
A/B splits are unsupported (the message does not name the action's id),
while compiling the same flow for the UI backend succeeds: the ab-split
is part of the compiled UI sequence (dragged as the default sidebar
item) and no error is raised. -/
theorem claim_C5 (cfgEmail : String) (f : FlowDefinition)
    (settings : Option FlowSettings)
    (tmpl : Option (List (String × String)))
    (b : FlowAction) (ab : ABSplitA) (hb : b ∈ f.actions)
    (hab : b = FlowAction.abSplit ab)
    (hN : (f.actions.map FlowAction.id).Nodup) :
    transformActions cfgEmail f.actions settings tmpl =
      .error ⟨abSplitErrorMessage⟩ ∧
    b ∈ getActionSequence f ∧
    (FlowAction.id b, sidebarLabel b) ∈ compileForUI f ∧
    sidebarLabel b = "Email" := by
  refine ⟨transformActions_abSplit ⟨b, hb, ab, hab⟩, ?_, ?_, ?_⟩
  · exact ((getActionSequence_perm f hN).mem_iff).mpr hb
  · exact List.mem_map_of_mem _
      (((getActionSequence_perm f hN).mem_iff).mpr hb)
  · subst hab; rfl

/-- Witness for C5 (amended) at the concrete one-action A/B flow. -/
theorem claim_C5_witness :
    (abAct ∈ abFlow.actions ∧
      (abFlow.actions.map FlowAction.id).Nodup) ∧
    (transformActions ("") abFlow.actions none none =
        .error ⟨abSplitErrorMessage⟩ ∧
      abAct ∈ getActionSequence abFlow ∧
      (FlowAction.id abAct, sidebarLabel abAct) ∈ compileForUI abFlow ∧
      sidebarLabel abAct = "Email") :=
  ⟨⟨by decide, by decide⟩,
    claim_C5 ("") abFlow none none abAct { id := "ab1" } (by decide) rfl
      (by decide)⟩

/-- Claim C6: for every time-delay action the compiled REST payload's
`delay_until_weekdays` field is the full seven-weekday list when the
delay unit is `days` and null for every other unit; and this is the
action produced by the REST compiler's dispatch. -/
theorem claim_C6 (cfgEmail : String) (settings : Option FlowSettings)
    (tmpl : Option (List (String × String))) (a : TimeDelayA) :
    transformAction cfgEmail (FlowAction.timeDelay a) settings tmpl =
      .ok (transformTimeDelay a) ∧
    (transformTimeDelay a).delayWeekdays =
      (if a.delay_unit = DelayUnit.days then some allWeekdays else none) := by
  refine ⟨rfl, ?_⟩
  by_cases h : a.delay_unit = DelayUnit.days <;>
    simp [transformTimeDelay, KlaviyoAPIAction.delayWeekdays, h]

/-- Claim C7: validation is a pure function of the flow definition —
the embedded validator (a direct translation of the source, which never
writes to its argument) maps structurally equal inputs to identical
results, so validating and re-validating the same structure yields
identical errors and warnings. -/
theorem claim_C7 (f g : FlowDefinition) (h : f = g) :
    validateFlowDefinition g = validateFlowDefinition f ∧
    (validateFlowDefinition g).errors = (validateFlowDefinition f).errors ∧
    (validateFlowDefinition g).warnings =
      (validateFlowDefinition f).warnings := by
  subst h
  exact ⟨rfl, rfl, rfl⟩

/-- Witness for C7 at a concrete flow. -/
theorem claim_C7_witness :
    validateFlowDefinition simpleFlow = validateFlowDefinition simpleFlow ∧
    (validateFlowDefinition simpleFlow).errors =
      (validateFlowDefinition simpleFlow).errors ∧
    (validateFlowDefinition simpleFlow).warnings =
      (validateFlowDefinition simpleFlow).warnings :=
  claim_C7 simpleFlow simpleFlow rfl

/-- The `temporary_id` of any successfully transformed action is the
source action's id. -/
theorem transformAction_temporary_id {cfgEmail : String}
    {action : FlowAction} {settings : Option FlowSettings}
    {tmpl : Option (List (String × String))} {x : KlaviyoAPIAction}
    (h : transformAction cfgEmail action settings tmpl = .ok x) :
    x.temporary_id = FlowAction.id action := by
  cases action with
  | timeDelay a =>
    simp only [transformAction, Except.ok.injEq] at h
    subst h; rfl
  | sendEmail a =>
    simp only [transformAction, Except.ok.injEq] at h
    subst h; rfl
  | sendSms a =>
    simp only [transformAction, Except.ok.injEq] at h
    subst h; rfl
  | conditionalSplit a =>
    simp only [transformAction, Except.ok.injEq] at h
    subst h; rfl
  | abSplit a =>
    simp only [transformAction] at h
    exact absurd h (by simp)

/-- A successful `transformActions` run maps the i-th action to the i-th
compiled action, preserving length and ids positionally. -/
theorem transformActions_ok_spec {cfgEmail : String}
    {actions : List FlowAction} {settings : Option FlowSettings}
    {tmpl : Option (List (String × String))} {res : List KlaviyoAPIAction}
    (h : transformActions cfgEmail actions settings tmpl = .ok res) :
    res.length = actions.length ∧
    ∀ (i : Nat) (hi : i < res.length) (hj : i < actions.length),
      (res.get ⟨i, hi⟩).temporary_id =
        FlowAction.id (actions.get ⟨i, hj⟩) := by
  induction actions generalizing res with
  | nil =>
    simp only [transformActions, Except.ok.injEq] at h
    subst h
    exact ⟨rfl, fun i hi hj => absurd hi (by simp)⟩
  | cons a rest ih =>
    simp only [transformActions] at h
    cases ha : transformAction cfgEmail a settings tmpl with
    | error e => rw [ha] at h; exact absurd h (by simp)
    | ok x =>
      rw [ha] at h
      cases hr : transformActions cfgEmail rest settings tmpl with
      | error e => rw [hr] at h; exact absurd h (by simp)
      | ok xs =>
        rw [hr] at h
        simp only [Except.ok.injEq] at h
        subst h
        obtain ⟨hlen, hids⟩ := ih hr
        refine ⟨by simpa using hlen, ?_⟩
        intro i hi hj
        match i with
        | 0 => exact transformAction_temporary_id ha
        | n + 1 =>
          exact hids n (by simpa using hi) (by simpa using hj)

/-- Claim C10: the REST compiler's action transformation preserves the
definition's original action order — a successful `transformActions`
returns one compiled action per input action, positionally carrying the
input action's id as `temporary_id` — and `buildPayload` places that
array unchanged into the payload together with the definition's
`entry_action_id`. -/
theorem claim_C10 (cfgEmail : String) (f : FlowDefinition)
    (trigger : KlaviyoAPITrigger) (settings : Option FlowSettings)
    (tmpl : Option (List (String × String))) (res : List KlaviyoAPIAction)
    (h : transformActions cfgEmail f.actions settings tmpl = .ok res) :
    res.length = f.actions.length ∧
    (∀ (i : Nat) (hi : i < res.length) (hj : i < f.actions.length),
      (res.get ⟨i, hi⟩).temporary_id =
        FlowAction.id (f.actions.get ⟨i, hj⟩)) ∧
    (buildPayload f trigger res).attributes.definition.actions = res ∧
    (buildPayload f trigger res).attributes.definition.entry_action_id =
      f.entry_action_id := by
  obtain ⟨hlen, hids⟩ := transformActions_ok_spec h
  exact ⟨hlen, hids, rfl, rfl⟩

/-- Witness for C10 at the concrete two-action flow. -/
theorem claim_C10_witness :
    ∃ res, transformActions ("") simpleFlow.actions none none = .ok res ∧
      (res.length = simpleFlow.actions.length ∧
      (∀ (i : Nat) (hi : i < res.length) (hj : i < simpleFlow.actions.length),
        (res.get ⟨i, hi⟩).temporary_id =
          FlowAction.id (simpleFlow.actions.get ⟨i, hj⟩)) ∧
      (buildPayload simpleFlow ⟨"list", "L1", none⟩ res).attributes.definition.actions = res ∧
      (buildPayload simpleFlow ⟨"list", "L1", none⟩ res).attributes.definition.entry_action_id =
        simpleFlow.entry_action_id) :=
  ⟨_, rfl, claim_C10 ("") simpleFlow ⟨"list", "L1", none⟩ none none _ rfl⟩

end Klaviyo
